import Mathlib

/-!
Verification of the `toxyl/math` repository: a shallow embedding of the
`generate.go` code generator (scanner, classifier, templates, emission) and
of the hand-written utility functions `Avg` and `Clamp` from
`user_functions.go`, together with theorems settling the spec's claims.

Go's `float64` arithmetic in the utility functions is idealised as exact
rational arithmetic (`ℚ`); every value involved in the concrete
computations below is exactly representable in binary floating point, so
the idealisation is faithful on those inputs.
-/

namespace ToxylMath

/-- A Go type expression as the classifier sees it: either a bare
identifier (`*ast.Ident`, carrying its name) or any other type expression,
carried as its `go/printer` rendering. -/
inductive GoType where
  | ident (name : String)
  | other (rendering : String)
deriving DecidableEq, Repr

/-- `printer.Fprint` applied to a type expression. -/
def GoType.print : GoType → String
  | .ident n => n
  | .other r => r

/-- `ident, ok := t.(*ast.Ident); ok && ident.Name == "float64"` — the
structural float64 test used for both parameters and the result. -/
def isFloat64 : GoType → Bool
  | .ident n => n == "float64"
  | .other _ => false

/-- One `*ast.Field` of a parameter or result list: a possibly empty list
of names sharing one type (empty = anonymous). -/
structure Field where
  names : List String
  type : GoType
deriving DecidableEq, Repr

/-- The parts of an `*ast.FuncDecl` the generator reads: name, whether a
receiver is present, the parameter fields, and the result fields
(`d.Type.Results == nil` and an empty result list are fused, as the code
treats them alike). -/
structure FuncDecl where
  name : String
  hasRecv : Bool
  params : List Field
  results : List Field
deriving DecidableEq, Repr

/-- `FuncInfo` from generate.go. -/
structure FuncInfo where
  Name : String
  Params : String
  GenericParams : String
  CastArgs : String
  ReturnType : String
  IsGeneric : Bool
  OriginalSig : String
deriving DecidableEq, Repr

/-- The per-parameter names the classifier works with: the declared names,
or the synthesized `argN` (`N` = the field's index `i` in the loop
`for i, field := range d.Type.Params.List`) when the field is anonymous. -/
def fieldNames (i : Nat) (f : Field) : List String :=
  if f.names.isEmpty then ["arg" ++ toString i] else f.names

/-- The parameter loop of the classifier, threading the loop index `i` and
building the three parallel lists `genericParams`, `castArgs`,
`nonGenericParams`. -/
def buildParams (i : Nat) : List Field → List String × List String × List String
  | [] => ([], [], [])
  | f :: rest =>
    let names := fieldNames i f
    let (gps, cas, ngps) := buildParams (i + 1) rest
    ((String.intercalate ", " names ++ " N") :: gps,
     names.map (fun n => "float64(" ++ n ++ ")") ++ cas,
     (String.intercalate ", " names ++ " " ++ f.type.print) :: ngps)

/-- A rendering of the declared signature (`printer.Fprint` of `d.Type`),
kept only for the `OriginalSig` field, which no template reads. -/
def printFuncType (d : FuncDecl) : String :=
  let pf := fun (f : Field) =>
    if f.names.isEmpty then f.type.print
    else String.intercalate ", " f.names ++ " " ++ f.type.print
  "func(" ++ String.intercalate ", " (d.params.map pf) ++ ")" ++
    match d.results with
    | [] => ""
    | [f] => if f.names.isEmpty then " " ++ f.type.print
             else " (" ++ pf f ++ ")"
    | fs => " (" ++ String.intercalate ", " (fs.map pf) ++ ")"

/-- The classifier: the `*ast.FuncDecl` branch of `main`. `isGeneric`
starts `true`, is cleared by any parameter whose type is not the
identifier `float64`, and by the result clause unless it has exactly one
field with at most one name whose type is the identifier `float64`. -/
def classify (d : FuncDecl) : FuncInfo :=
  let pGeneric := d.params.all fun f => isFloat64 f.type
  let bp := buildParams 0 d.params
  let rres :=
    match d.results with
    | [f] => (!(decide (f.names.length > 1)) && isFloat64 f.type, f.type.print)
    | _ => (false, "")
  { Name := d.name
    Params := String.intercalate ", " bp.2.2
    GenericParams := String.intercalate ", " bp.1
    CastArgs := String.intercalate ", " bp.2.1
    ReturnType := rres.2
    IsGeneric := pGeneric && rres.1
    OriginalSig := printFuncType d }

/-- `token.IsExported` on an identifier: the first character is an
uppercase letter. -/
def isExported (s : String) : Bool :=
  match s.data with
  | [] => false
  | c :: _ => c.isUpper

/-- One `*ast.ValueSpec` of a `const` or `var` group: its names and the
`go/printer` renderings of its initializer expressions. -/
structure ValueSpec where
  names : List String
  values : List String
deriving DecidableEq, Repr

/-- `ConstInfo` from generate.go. -/
structure ConstInfo where
  Name : String
  Value : String
deriving DecidableEq, Repr

/-- `VarInfo` from generate.go. -/
structure VarInfo where
  Name : String
  Value : String
deriving DecidableEq, Repr

/-- `TypeInfo` from generate.go. -/
structure TypeInfo where
  Name : String
  Decl : String
deriving DecidableEq, Repr

/-- A top-level declaration as dispatched by the `switch` in `main`:
a function declaration, a `const`/`var`/`type` group (the latter carrying
the `go/printer` rendering of the whole `GenDecl`), or anything else
(imports, unexported grouping), which the walk ignores. -/
inductive Decl where
  | funcDecl (d : FuncDecl)
  | constDecl (specs : List ValueSpec)
  | varDecl (specs : List ValueSpec)
  | typeDecl (names : List String) (rendering : String)
  | otherDecl
deriving DecidableEq, Repr

/-- The `token.CONST`/`token.VAR` branch body for one spec: for the `i`-th
name, if exported, record it with the printed `Values[i]` when present and
the empty string otherwise. -/
def specEntries (vs : ValueSpec) : List (String × String) :=
  (vs.names.enum).flatMap fun p =>
    if isExported p.2 then [(p.2, vs.values.getD p.1 "")] else []

/-- The four collections `funcs`, `consts`, `vars`, `types` accumulated by
the scan loop. -/
structure ScanResult where
  funcs : List FuncInfo
  consts : List ConstInfo
  vars : List VarInfo
  types : List TypeInfo
deriving DecidableEq, Repr

/-- The declaration walk over one list of top-level declarations,
preserving declaration order: exported receiver-less functions are
classified; exported constant/variable names are recorded with their
initializer renderings; exported type specs record the whole group's
rendering. -/
def scanDecls : List Decl → ScanResult
  | [] => ⟨[], [], [], []⟩
  | d :: rest =>
    let st := scanDecls rest
    match d with
    | .funcDecl fd =>
        if isExported fd.name && !fd.hasRecv then
          ⟨classify fd :: st.funcs, st.consts, st.vars, st.types⟩
        else st
    | .constDecl specs =>
        ⟨st.funcs,
         (specs.flatMap specEntries).map (fun p => ConstInfo.mk p.1 p.2) ++ st.consts,
         st.vars, st.types⟩
    | .varDecl specs =>
        ⟨st.funcs, st.consts,
         (specs.flatMap specEntries).map (fun p => VarInfo.mk p.1 p.2) ++ st.vars,
         st.types⟩
    | .typeDecl names rendering =>
        ⟨st.funcs, st.consts, st.vars,
         (names.filter isExported).map (fun n => TypeInfo.mk n rendering) ++ st.types⟩
    | .otherDecl => st

/-- One source file of the scanned package: its path and the result of
`parser.ParseFile` — `none` models a parse error. -/
structure GoFile where
  path : String
  decls : Option (List Decl)
deriving DecidableEq, Repr

/-- Parsing the package's files in order; the first parse failure aborts
with that file's path (`log.Fatalf` in the code). -/
def parseAll : List GoFile → Except String (List Decl)
  | [] => .ok []
  | f :: rest =>
    match f.decls with
    | none => .error f.path
    | some ds =>
      match parseAll rest with
      | .error e => .error e
      | .ok rest' => .ok (ds ++ rest')

/-- The fixed file header shared by the four templates. -/
def header : String :=
  "// Code generated by go:generate; DO NOT EDIT.\n\npackage math\n"

/-- One iteration of the functions template's `range`: a comment line,
then either the generic wrapper or the `var` alias, following the
template's text and newlines exactly. -/
def funcEntry (fi : FuncInfo) : String :=
  "\n// " ++ fi.Name ++ " " ++
    (if fi.IsGeneric then "wraps math." ++ fi.Name ++ " in a generic function."
     else "is a direct alias to math." ++ fi.Name) ++ ".\n" ++
    (if fi.IsGeneric then
      "\nfunc " ++ fi.Name ++ "[N Number](" ++ fi.GenericParams ++ ") N \x7b\n\treturn N(math." ++ fi.Name ++ "(" ++ fi.CastArgs ++ "))\n\x7d\n"
     else
      "\n// Direct alias.\nvar " ++ fi.Name ++ " = math." ++ fi.Name ++ "\n") ++
    "\n"

/-- `funcTmplText` rendered over the function records. -/
def renderFunctionsFile (funcs : List FuncInfo) : String :=
  header ++ "\nimport \"math\"\n\n// Core functions: wrappers for functions in the standard math package.\n" ++
    String.join (funcs.map funcEntry) ++ "\n"

/-- `constTmplText` rendered over the constant records. -/
def renderConstsFile (consts : List ConstInfo) : String :=
  header ++ "\nimport \"math\"\n\n// Core constants: re-exported from the standard math package.\nconst (\n" ++
    String.join (consts.map (fun c => "\t" ++ c.Name ++ " = math." ++ c.Name ++ "\n")) ++ ")\n"

/-- `varTmplText` rendered over the variable records. -/
def renderVarsFile (vars : List VarInfo) : String :=
  header ++ "\nimport (\n\t\"math\"\n)\n// Core variables: re-exported from the standard math package.\nvar (\n" ++
    String.join (vars.map (fun v => "\t" ++ v.Name ++ " = math." ++ v.Name ++ "\n")) ++ ")\nvar _ = math.Pi // dummy usage to avoid unused import error.\n"

/-- `typeTmplText` rendered over the type records. -/
def renderTypesFile (types : List TypeInfo) : String :=
  header ++ "\nimport (\n\t\"math\"\n)\n// Core types: re-exported from the standard math package.\n" ++
    String.join (types.map (fun t => "\n" ++ t.Decl ++ "\n\n")) ++ "\nvar _ = math.Pi // dummy usage to avoid unused import error.\n"

/-- The four output modules in the order `main` writes them, with their
rendered contents. -/
def outputsOf (res : ScanResult) : List (String × String) :=
  [("core_functions.go", renderFunctionsFile res.funcs),
   ("core_consts.go", renderConstsFile res.consts),
   ("core_vars.go", renderVarsFile res.vars),
   ("core_types.go", renderTypesFile res.types)]

/-- The whole run as a function of the package's files: a parse failure
yields an error and no output files; otherwise the scanned model is
rendered into the four modules. -/
def generate (files : List GoFile) : Except String (List (String × String)) :=
  match parseAll files with
  | .error e => .error e
  | .ok decls => .ok (outputsOf (scanDecls decls))

/-- An observable step of `main`: a file handed to `parser.ParseFile`, a
function declaration handed to the classifier, or an output module
written. -/
inductive Event where
  | parseFile (path : String)
  | classifyFunc (name : String)
  | writeModule (path : String)
deriving DecidableEq, Repr

/-- The classification events one parsed file contributes: one per
exported receiver-less function declaration, in order. -/
def classifyEvents (decls : List Decl) : List Event :=
  decls.flatMap fun d =>
    match d with
    | .funcDecl fd =>
        if isExported fd.name && !fd.hasRecv then [Event.classifyFunc fd.name] else []
    | _ => []

/-- The event trace of the per-file loop of `main` and whether it ran to
completion: each file is parsed and its declarations immediately
classified before the next file is parsed; a parse failure stops the loop
at once (`log.Fatalf`). -/
def traceFiles : List GoFile → List Event × Bool
  | [] => ([], true)
  | f :: rest =>
    match f.decls with
    | none => ([Event.parseFile f.path], false)
    | some ds =>
      (Event.parseFile f.path :: (classifyEvents ds ++ (traceFiles rest).1),
       (traceFiles rest).2)

/-- The event trace of a whole run: the scan loop's trace, followed by the
four module writes when and only when every file parsed. -/
def traceRun (files : List GoFile) : List Event :=
  if (traceFiles files).2 then
    (traceFiles files).1 ++
      [Event.writeModule "core_functions.go", Event.writeModule "core_consts.go",
       Event.writeModule "core_vars.go", Event.writeModule "core_types.go"]
  else (traceFiles files).1

/-- The emission sequence under a failure oracle `ok` (covering
`os.Create`, template rendering and writing for each target path): modules
are attempted in list order; the first failing module stops the run,
leaving the previously written modules in place. Returns the written
(path, contents) pairs and the failing path, if any. -/
def writeSeq (ok : String → Bool) : List (String × String) → List (String × String) × Option String
  | [] => ([], none)
  | m :: rest =>
    if ok m.1 then (m :: (writeSeq ok rest).1, (writeSeq ok rest).2)
    else ([], some m.1)

/-- The emission phase of `main` over a scanned model, under failure
oracle `ok`. -/
def emitAll (ok : String → Bool) (res : ScanResult) : List (String × String) × Option String :=
  writeSeq ok (outputsOf res)

/-- `Avg` from user_functions.go over exact rationals: `res` starts at 0;
the indexed loop overwrites it with the first element and then folds
`res = (res + float64(n)) / 2.0` over the rest. -/
def Avg (x : List ℚ) : ℚ :=
  x.enum.foldl (fun res p => if p.1 = 0 then p.2 else (res + p.2) / 2) 0

/-- `Clamp` from user_functions.go over exact rationals. -/
def Clamp (x min max : ℚ) : ℚ :=
  if x < min then min
  else if x > max then max
  else x

theorem isFloat64_iff (t : GoType) : isFloat64 t = true ↔ t = GoType.ident "float64" := by
  cases t <;> simp [isFloat64]

/-- C1: the classifier sets `IsGeneric = true` iff every parameter's
declared type is structurally the identifier `float64`, the result clause
has exactly one field, that field declares at most one result name, and
its type is structurally the identifier `float64`; a function with zero
parameters satisfies the parameter condition vacuously. -/
theorem C1_classifier_isGeneric (d : FuncDecl) :
    (classify d).IsGeneric = true ↔
      ((∀ f ∈ d.params, f.type = GoType.ident "float64") ∧
       ∃ f, d.results = [f] ∧ f.names.length ≤ 1 ∧ f.type = GoType.ident "float64") := by
  unfold classify
  cases hr : d.results with
  | nil =>
    simp [hr, List.all_eq_true, isFloat64_iff]
  | cons f rest =>
    cases rest with
    | nil =>
      simp [hr, List.all_eq_true, isFloat64_iff, Nat.not_lt, and_assoc]
    | cons g rest' =>
      simp [hr, List.all_eq_true, isFloat64_iff]

/-- The functions-module entry as the claim describes it: for a generic
record, the template's comment line followed by a wrapper
`func Name[N Number](genericParams) N` whose body is exactly
`return N(math.Name(castArgs))`; for a non-generic record, the comment
lines followed by the binding `var Name = math.Name`. -/
def claimedFuncEntry (fi : FuncInfo) : String :=
  if fi.IsGeneric then
    "\n// " ++ fi.Name ++ " wraps math." ++ fi.Name ++ " in a generic function..\n\nfunc " ++ fi.Name ++ "[N Number](" ++ fi.GenericParams ++ ") N \x7b\n\treturn N(math." ++ fi.Name ++ "(" ++ fi.CastArgs ++ "))\n\x7d\n\n"
  else
    "\n// " ++ fi.Name ++ " is a direct alias to math." ++ fi.Name ++ ".\n\n// Direct alias.\nvar " ++ fi.Name ++ " = math." ++ fi.Name ++ "\n\n"

theorem funcEntry_eq_claimed (fi : FuncInfo) : funcEntry fi = claimedFuncEntry fi := by
  cases h : fi.IsGeneric <;>
    simp [funcEntry, claimedFuncEntry, h, String.ext_iff, String.data_append]

/-- C2: the rendered functions module is exactly the fixed preamble
followed, for each record in order, by the claimed entry: a wrapper
`func Name[N Number](genericParams) N` with body exactly
`return N(math.Name(castArgs))` when `IsGeneric`, and the binding
`var Name = math.Name` otherwise. -/
theorem C2_functions_template (funcs : List FuncInfo) :
    renderFunctionsFile funcs =
      header ++ "\nimport \"math\"\n\n// Core functions: wrappers for functions in the standard math package.\n" ++
        String.join (funcs.map claimedFuncEntry) ++ "\n" := by
  have h : funcEntry = claimedFuncEntry := funext funcEntry_eq_claimed
  rw [renderFunctionsFile, h]

/-- `func Sin(x float64) float64`. -/
def exSin : FuncDecl :=
  ⟨"Sin", false, [⟨["x"], GoType.ident "float64"⟩], [⟨[], GoType.ident "float64"⟩]⟩

theorem C1_classifier_isGeneric_witness : (classify exSin).IsGeneric = true :=
  (C1_classifier_isGeneric exSin).mpr
    ⟨by decide, ⟨[], GoType.ident "float64"⟩, rfl, by decide, rfl⟩

theorem buildParams_fst_anon (ps : List Field) (i : Nat) (h : ∀ f ∈ ps, f.names = []) :
    (buildParams i ps).1 = (List.range' i ps.length).map fun j => "arg" ++ toString j ++ " N" := by
  induction ps generalizing i with
  | nil => simp [buildParams]
  | cons f rest ih =>
    have hf : f.names = [] := h f (by simp)
    simp [buildParams, fieldNames, hf, List.range'_succ, String.intercalate,
          String.intercalate.go, ih (i + 1) (fun g hg => h g (by simp [hg]))]

theorem buildParams_castArgs_anon (ps : List Field) (i : Nat) (h : ∀ f ∈ ps, f.names = []) :
    (buildParams i ps).2.1 = (List.range' i ps.length).map fun j => "float64(arg" ++ toString j ++ ")" := by
  induction ps generalizing i with
  | nil => simp [buildParams]
  | cons f rest ih =>
    have hf : f.names = [] := h f (by simp)
    simp [buildParams, fieldNames, hf, List.range'_succ, String.ext_iff,
          String.data_append, ih (i + 1) (fun g hg => h g (by simp [hg]))]

/-- C5: when every parameter is anonymous (the only well-formed Go shape in
which any parameter lacks a name, since mixed named and unnamed parameters
are a parse error), the classifier synthesizes `argN` with `N` the
parameter's zero-based position, both in the generic parameter list and in
the cast-argument list; the naming is a pure function of the declaration,
hence identical across runs. -/
theorem C5_anonymous_params (d : FuncDecl) (h : ∀ f ∈ d.params, f.names = []) :
    (classify d).GenericParams =
      String.intercalate ", " ((List.range d.params.length).map fun i => "arg" ++ toString i ++ " N") ∧
    (classify d).CastArgs =
      String.intercalate ", " ((List.range d.params.length).map fun i => "float64(arg" ++ toString i ++ ")") := by
  constructor
  · show String.intercalate ", " (buildParams 0 d.params).1 = _
    rw [buildParams_fst_anon d.params 0 h, List.range_eq_range']
  · show String.intercalate ", " (buildParams 0 d.params).2.1 = _
    rw [buildParams_castArgs_anon d.params 0 h, List.range_eq_range']

/-- An anonymous two-parameter declaration, `func Hypot(float64, float64) float64`
with the parameter names erased. -/
def exHypot : FuncDecl :=
  ⟨"Hypot", false, [⟨[], GoType.ident "float64"⟩, ⟨[], GoType.ident "float64"⟩],
   [⟨[], GoType.ident "float64"⟩]⟩

theorem C5_anonymous_params_witness :
    (∀ f ∈ exHypot.params, f.names = ([] : List String)) ∧
    ((classify exHypot).GenericParams =
      String.intercalate ", " ((List.range exHypot.params.length).map fun i => "arg" ++ toString i ++ " N") ∧
     (classify exHypot).CastArgs =
      String.intercalate ", " ((List.range exHypot.params.length).map fun i => "float64(arg" ++ toString i ++ ")")) :=
  ⟨by decide, C5_anonymous_params exHypot (by decide)⟩

/-- The function records one declaration contributes to the scan. -/
def funcsOf : Decl → List FuncInfo
  | .funcDecl fd => if isExported fd.name && !fd.hasRecv then [classify fd] else []
  | _ => []

theorem scanDecls_cons_funcs (d : Decl) (rest : List Decl) :
    (scanDecls (d :: rest)).funcs = funcsOf d ++ (scanDecls rest).funcs := by
  cases d with
  | funcDecl fd =>
    simp only [scanDecls, funcsOf]
    by_cases hx : (isExported fd.name && !fd.hasRecv) = true
    · rw [if_pos hx, if_pos hx]; rfl
    · rw [if_neg hx, if_neg hx]; rfl
  | constDecl specs => rfl
  | varDecl specs => rfl
  | typeDecl names rendering => rfl
  | otherDecl => rfl

/-- The constant records one declaration contributes to the scan. -/
def constsOf : Decl → List ConstInfo
  | .constDecl specs => (specs.flatMap specEntries).map fun p => ConstInfo.mk p.1 p.2
  | _ => []

theorem scanDecls_cons_consts (d : Decl) (rest : List Decl) :
    (scanDecls (d :: rest)).consts = constsOf d ++ (scanDecls rest).consts := by
  cases d with
  | funcDecl fd =>
    simp only [scanDecls, constsOf]
    by_cases hx : (isExported fd.name && !fd.hasRecv) = true
    · rw [if_pos hx]; rfl
    · rw [if_neg hx]; rfl
  | constDecl specs => rfl
  | varDecl specs => rfl
  | typeDecl names rendering => rfl
  | otherDecl => rfl

/-- The variable records one declaration contributes to the scan. -/
def varsOf : Decl → List VarInfo
  | .varDecl specs => (specs.flatMap specEntries).map fun p => VarInfo.mk p.1 p.2
  | _ => []

theorem scanDecls_cons_vars (d : Decl) (rest : List Decl) :
    (scanDecls (d :: rest)).vars = varsOf d ++ (scanDecls rest).vars := by
  cases d with
  | funcDecl fd =>
    simp only [scanDecls, varsOf]
    by_cases hx : (isExported fd.name && !fd.hasRecv) = true
    · rw [if_pos hx]; rfl
    · rw [if_neg hx]; rfl
  | constDecl specs => rfl
  | varDecl specs => rfl
  | typeDecl names rendering => rfl
  | otherDecl => rfl

/-- The type records one declaration contributes to the scan. -/
def typesOf : Decl → List TypeInfo
  | .typeDecl names rendering => (names.filter isExported).map fun n => TypeInfo.mk n rendering
  | _ => []

theorem scanDecls_cons_types (d : Decl) (rest : List Decl) :
    (scanDecls (d :: rest)).types = typesOf d ++ (scanDecls rest).types := by
  cases d with
  | funcDecl fd =>
    simp only [scanDecls, typesOf]
    by_cases hx : (isExported fd.name && !fd.hasRecv) = true
    · rw [if_pos hx]; rfl
    · rw [if_neg hx]; rfl
  | constDecl specs => rfl
  | varDecl specs => rfl
  | typeDecl names rendering => rfl
  | otherDecl => rfl

theorem scan_funcs_eq (decls : List Decl) :
    (scanDecls decls).funcs = decls.flatMap funcsOf := by
  induction decls with
  | nil => rfl
  | cons d rest ih => rw [scanDecls_cons_funcs, ih, List.flatMap_cons]

theorem specEntries_exported (vs : ValueSpec) (p : String × String) (hp : p ∈ specEntries vs) :
    isExported p.1 = true := by
  simp only [specEntries, List.mem_flatMap] at hp
  obtain ⟨q, _, hpq⟩ := hp
  by_cases h : isExported q.2 = true
  · rw [if_pos h, List.mem_singleton] at hpq
    rw [hpq]
    exact h
  · rw [if_neg h] at hpq
    exact absurd hpq (List.not_mem_nil p)

theorem scan_consts_exported (decls : List Decl) :
    ∀ c ∈ (scanDecls decls).consts, isExported c.Name = true := by
  induction decls with
  | nil => simp [scanDecls]
  | cons d rest ih =>
    intro c hc
    rw [scanDecls_cons_consts, List.mem_append] at hc
    rcases hc with hc | hc
    · cases d with
      | constDecl specs =>
        simp only [constsOf, List.mem_map, List.mem_flatMap] at hc
        obtain ⟨p, ⟨vs, _, hp⟩, rfl⟩ := hc
        exact specEntries_exported vs p hp
      | funcDecl fd => simp [constsOf] at hc
      | varDecl specs => simp [constsOf] at hc
      | typeDecl names rendering => simp [constsOf] at hc
      | otherDecl => simp [constsOf] at hc
    · exact ih c hc

theorem scan_vars_exported (decls : List Decl) :
    ∀ v ∈ (scanDecls decls).vars, isExported v.Name = true := by
  induction decls with
  | nil => simp [scanDecls]
  | cons d rest ih =>
    intro v hv
    rw [scanDecls_cons_vars, List.mem_append] at hv
    rcases hv with hv | hv
    · cases d with
      | varDecl specs =>
        simp only [varsOf, List.mem_map, List.mem_flatMap] at hv
        obtain ⟨p, ⟨vs, _, hp⟩, rfl⟩ := hv
        exact specEntries_exported vs p hp
      | funcDecl fd => simp [varsOf] at hv
      | constDecl specs => simp [varsOf] at hv
      | typeDecl names rendering => simp [varsOf] at hv
      | otherDecl => simp [varsOf] at hv
    · exact ih v hv

theorem scan_types_exported (decls : List Decl) :
    ∀ t ∈ (scanDecls decls).types, isExported t.Name = true := by
  induction decls with
  | nil => simp [scanDecls]
  | cons d rest ih =>
    intro t ht
    rw [scanDecls_cons_types, List.mem_append] at ht
    rcases ht with ht | ht
    · cases d with
      | typeDecl names rendering =>
        simp only [typesOf, List.mem_map, List.mem_filter] at ht
        obtain ⟨n, ⟨_, hn⟩, rfl⟩ := ht
        exact hn
      | funcDecl fd => simp [typesOf] at ht
      | constDecl specs => simp [typesOf] at ht
      | varDecl specs => simp [typesOf] at ht
      | otherDecl => simp [typesOf] at ht
    · exact ih t ht

/-- C7: a function record reaches the classifier's output iff it comes
from an exported, receiver-less function declaration of the walked files;
and every retained constant, variable and type record is exported — all
other declarations are silently dropped. -/
theorem C7_scanner_filter (decls : List Decl) (fi : FuncInfo) :
    (fi ∈ (scanDecls decls).funcs ↔
      ∃ fd, Decl.funcDecl fd ∈ decls ∧ isExported fd.name = true ∧ fd.hasRecv = false ∧
        fi = classify fd) ∧
    (∀ c ∈ (scanDecls decls).consts, isExported c.Name = true) ∧
    (∀ v ∈ (scanDecls decls).vars, isExported v.Name = true) ∧
    (∀ t ∈ (scanDecls decls).types, isExported t.Name = true) := by
  refine ⟨?_, scan_consts_exported decls, scan_vars_exported decls, scan_types_exported decls⟩
  rw [scan_funcs_eq, List.mem_flatMap]
  constructor
  · rintro ⟨d, hd, hfi⟩
    cases d with
    | funcDecl fd =>
      by_cases hx : (isExported fd.name && !fd.hasRecv) = true
      · rw [funcsOf, if_pos hx, List.mem_singleton] at hfi
        rw [Bool.and_eq_true, Bool.not_eq_true'] at hx
        exact ⟨fd, hd, hx.1, hx.2, hfi⟩
      · rw [funcsOf, if_neg hx] at hfi
        exact absurd hfi (List.not_mem_nil fi)
    | constDecl specs => simp [funcsOf] at hfi
    | varDecl specs => simp [funcsOf] at hfi
    | typeDecl names rendering => simp [funcsOf] at hfi
    | otherDecl => simp [funcsOf] at hfi
  · rintro ⟨fd, hd, h1, h2, rfl⟩
    exact ⟨Decl.funcDecl fd, hd, by simp [funcsOf, h1, h2]⟩

/-- Witness: a package with an exported free function, an unexported one
and a method; only the first is retained. -/
theorem C7_scanner_filter_witness :
    classify ⟨"Abs", false, [⟨["x"], GoType.ident "float64"⟩], [⟨[], GoType.ident "float64"⟩]⟩ ∈
      (scanDecls
        [Decl.funcDecl ⟨"Abs", false, [⟨["x"], GoType.ident "float64"⟩], [⟨[], GoType.ident "float64"⟩]⟩,
         Decl.funcDecl ⟨"trunc", false, [], []⟩,
         Decl.funcDecl ⟨"Round", true, [], []⟩]).funcs :=
  (C7_scanner_filter _ _).1.mpr
    ⟨⟨"Abs", false, [⟨["x"], GoType.ident "float64"⟩], [⟨[], GoType.ident "float64"⟩]⟩,
     by decide, by decide, rfl, rfl⟩

/-- Two source files: the first parses and holds an exported free
function, the second fails to parse. -/
def c3Files : List GoFile :=
  [⟨"abs.go", some [Decl.funcDecl ⟨"Abs", false, [⟨["x"], GoType.ident "float64"⟩],
      [⟨[], GoType.ident "float64"⟩]⟩]⟩,
   ⟨"bits.go", none⟩]

/-- Counterexample to C3 as stated: on `c3Files` the run aborts on the
second file's parse failure, yet the declaration of the first file has
already been classified — `main` interleaves parsing and classification
per file, so the abort does not come before all classification. -/
theorem C3_counterexample :
    (traceFiles c3Files).2 = false ∧
    traceRun c3Files =
      [Event.parseFile "abs.go", Event.classifyFunc "Abs", Event.parseFile "bits.go"] := by
  decide

theorem classifyEvents_shape (decls : List Decl) :
    ∀ e ∈ classifyEvents decls, ∃ n, e = Event.classifyFunc n := by
  intro e he
  simp only [classifyEvents, List.mem_flatMap] at he
  obtain ⟨d, _, hd⟩ := he
  cases d with
  | funcDecl fd =>
    dsimp only at hd
    by_cases hx : (isExported fd.name && !fd.hasRecv) = true
    · rw [if_pos hx, List.mem_singleton] at hd
      exact ⟨fd.name, hd⟩
    · rw [if_neg hx] at hd
      exact absurd hd (List.not_mem_nil e)
  | constDecl specs => simp at hd
  | varDecl specs => simp at hd
  | typeDecl names rendering => simp at hd
  | otherDecl => simp at hd

theorem traceFiles_no_write (files : List GoFile) :
    ∀ e ∈ (traceFiles files).1, ∀ p, e ≠ Event.writeModule p := by
  induction files with
  | nil => simp [traceFiles]
  | cons f rest ih =>
    cases hd : f.decls with
    | none =>
      intro e he p
      simp only [traceFiles, hd, List.mem_singleton] at he
      simp [he]
    | some ds =>
      intro e he p
      simp only [traceFiles, hd, List.mem_cons, List.mem_append] at he
      rcases he with rfl | he | he
      · simp
      · obtain ⟨n, rfl⟩ := classifyEvents_shape ds e he
        simp
      · exact ih e he p

theorem traceFiles_false_parseAll (files : List GoFile)
    (h : (traceFiles files).2 = false) : ∃ e, parseAll files = Except.error e := by
  induction files with
  | nil => simp [traceFiles] at h
  | cons f rest ih =>
    cases hd : f.decls with
    | none => exact ⟨f.path, by simp [parseAll, hd]⟩
    | some ds =>
      simp only [traceFiles, hd] at h
      obtain ⟨e, he⟩ := ih h
      exact ⟨e, by simp [parseAll, hd, he]⟩

/-- C3 amended: parsing and classification are interleaved per file (each
file's declarations are classified before the next file is parsed, so a
parse failure does not come before all classification — see the
counterexample); but a parse failure aborts the run immediately, the
partially scanned results are discarded (the run ends in an error) and no
output module is written. -/
theorem C3_amended_abort (files : List GoFile) (h : (traceFiles files).2 = false) :
    (∀ p, Event.writeModule p ∉ traceRun files) ∧
    ∃ e, generate files = Except.error e := by
  constructor
  · intro p hp
    rw [traceRun, if_neg (by simp [h])] at hp
    exact traceFiles_no_write files (Event.writeModule p) hp p rfl
  · obtain ⟨e, he⟩ := traceFiles_false_parseAll files h
    exact ⟨e, by rw [generate, he]⟩

/-- A failing package on which the amended C3 is instantiated. -/
def c3FilesB : List GoFile :=
  [⟨"sqrt.go", some [Decl.funcDecl ⟨"Sqrt", false, [⟨["x"], GoType.ident "float64"⟩],
      [⟨[], GoType.ident "float64"⟩]⟩]⟩,
   ⟨"broken.go", none⟩,
   ⟨"exp.go", some []⟩]

theorem C3_amended_abort_witness :
    (traceFiles c3FilesB).2 = false ∧
    ((∀ p, Event.writeModule p ∉ traceRun c3FilesB) ∧
     ∃ e, generate c3FilesB = Except.error e) :=
  ⟨by decide, C3_amended_abort c3FilesB (by decide)⟩

/-- A two-file package that parses fully. -/
def c4Files : List GoFile :=
  [⟨"abs.go", some [Decl.funcDecl ⟨"Abs", false, [⟨["x"], GoType.ident "float64"⟩],
      [⟨[], GoType.ident "float64"⟩]⟩,
      Decl.constDecl [⟨["MaxFloat64"], ["0x1p1023 * (1 + (1 - 0x1p-52))"]⟩]]⟩,
   ⟨"frexp.go", some [Decl.funcDecl ⟨"Frexp", false, [⟨["f"], GoType.ident "float64"⟩],
      [⟨["frac"], GoType.ident "float64"⟩, ⟨["exp"], GoType.ident "int"⟩]⟩]⟩]

/-- C4: the generator is deterministic — it is a pure function of the
scanned library source tree, so two runs on the same unchanged input
produce byte-identical contents for all four output modules. -/
theorem C4_deterministic (files1 files2 : List GoFile) (h : files1 = files2) :
    generate files1 = generate files2 := by
  rw [h]

theorem C4_deterministic_witness :
    c4Files = c4Files ∧ generate c4Files = generate c4Files :=
  ⟨rfl, C4_deterministic c4Files c4Files rfl⟩

theorem writeSeq_spec (ok : String → Bool) (ms : List (String × String)) :
    (writeSeq ok ms).1 = ms.takeWhile (fun m => ok m.1) ∧
    (writeSeq ok ms).2 = (ms.find? (fun m => !(ok m.1))).map Prod.fst := by
  induction ms with
  | nil => simp [writeSeq]
  | cons m rest ih =>
    cases hx : ok m.1 with
    | true => simp [writeSeq, hx, List.takeWhile_cons, List.find?_cons, ih.1, ih.2]
    | false => simp [writeSeq, hx, List.takeWhile_cons, List.find?_cons]

/-- C6: the four modules are attempted strictly in the fixed order
functions, constants, variables, types; under any failure oracle the
written modules are exactly the longest prefix of that order on which the
oracle succeeds (so earlier modules stay on disk, with no rollback), and
the reported failure is the first failing module, all later modules being
skipped. -/
theorem C6_emission_order (ok : String → Bool) (res : ScanResult) :
    (outputsOf res).map Prod.fst =
      ["core_functions.go", "core_consts.go", "core_vars.go", "core_types.go"] ∧
    (emitAll ok res).1 = (outputsOf res).takeWhile (fun m => ok m.1) ∧
    (emitAll ok res).2 = ((outputsOf res).find? (fun m => !(ok m.1))).map Prod.fst := by
  exact ⟨rfl, (writeSeq_spec ok (outputsOf res)).1, (writeSeq_spec ok (outputsOf res)).2⟩

/-- C8: the constants and variables modules depend only on the names (and
order) of the scanned records: each entry is rendered `Name = math.Name`
and the collected `Value` field is never read by any template, so two
snapshots agreeing on exported const/var names and order yield identical
`core_consts.go` and `core_vars.go` even if every initializer differs. -/
theorem C8_values_unused (cs cs' : List ConstInfo) (vs vs' : List VarInfo)
    (hc : cs.map ConstInfo.Name = cs'.map ConstInfo.Name)
    (hv : vs.map VarInfo.Name = vs'.map VarInfo.Name) :
    renderConstsFile cs = renderConstsFile cs' ∧ renderVarsFile vs = renderVarsFile vs' := by
  have hcl : ∀ (l : List ConstInfo),
      l.map (fun c => "\t" ++ c.Name ++ " = math." ++ c.Name ++ "\n") =
        (l.map ConstInfo.Name).map (fun n => "\t" ++ n ++ " = math." ++ n ++ "\n") := by
    intro l
    rw [List.map_map]
    rfl
  have hvl : ∀ (l : List VarInfo),
      l.map (fun v => "\t" ++ v.Name ++ " = math." ++ v.Name ++ "\n") =
        (l.map VarInfo.Name).map (fun n => "\t" ++ n ++ " = math." ++ n ++ "\n") := by
    intro l
    rw [List.map_map]
    rfl
  constructor
  · rw [renderConstsFile, renderConstsFile, hcl, hcl, hc]
  · rw [renderVarsFile, renderVarsFile, hvl, hvl, hv]

theorem C8_values_unused_witness :
    ([⟨"Pi", "3.14159"⟩] : List ConstInfo).map ConstInfo.Name =
      ([⟨"Pi", "355 / 113"⟩] : List ConstInfo).map ConstInfo.Name ∧
    ([⟨"ErrRange", "errors.New(\"range\")"⟩] : List VarInfo).map VarInfo.Name =
      ([⟨"ErrRange", "errors.New(\"out of range\")"⟩] : List VarInfo).map VarInfo.Name ∧
    (renderConstsFile [⟨"Pi", "3.14159"⟩] = renderConstsFile [⟨"Pi", "355 / 113"⟩] ∧
     renderVarsFile [⟨"ErrRange", "errors.New(\"range\")"⟩] =
       renderVarsFile [⟨"ErrRange", "errors.New(\"out of range\")"⟩]) :=
  ⟨rfl, rfl, C8_values_unused _ _ _ _ rfl rfl⟩

theorem avg_foldl_enumFrom (xs : List ℚ) (n : Nat) (hn : n ≠ 0) (a : ℚ) :
    (List.enumFrom n xs).foldl (fun res p => if p.1 = 0 then p.2 else (res + p.2) / 2) a =
      xs.foldl (fun acc y => (acc + y) / 2) a := by
  induction xs generalizing n a with
  | nil => rfl
  | cons y ys ih =>
    simp only [List.enumFrom, List.foldl_cons, if_neg hn]
    exact ih (n + 1) (Nat.succ_ne_zero n) _

/-- C9: `Avg` of no arguments is 0; `Avg (x :: xs)` is the left fold that
starts from the first argument and repeatedly averages the accumulator
with the next argument; and on three arguments this running pairwise
average differs from the arithmetic mean (`Avg [1, 2, 3] = 9/4 ≠ 2`). -/
theorem C9_avg_running_pairwise :
    Avg [] = 0 ∧
    (∀ (x : ℚ) (xs : List ℚ),
      Avg (x :: xs) = xs.foldl (fun acc y => (acc + y) / 2) x) ∧
    Avg [1, 2, 3] ≠ (1 + 2 + 3) / 3 := by
  have hfold : ∀ (x : ℚ) (xs : List ℚ),
      Avg (x :: xs) = xs.foldl (fun acc y => (acc + y) / 2) x := by
    intro x xs
    show (List.enumFrom 0 (x :: xs)).foldl
        (fun res p => if p.1 = 0 then p.2 else (res + p.2) / 2) 0 = _
    simp only [List.enumFrom, List.foldl_cons, if_pos rfl]
    exact avg_foldl_enumFrom xs 1 one_ne_zero x
  refine ⟨rfl, hfold, ?_⟩
  rw [hfold 1 [2, 3]]
  norm_num

/-- C10: whenever `min ≤ max`, `Clamp x min max` lies in `[min, max]`, and
it returns `x` unchanged whenever `x` already lies in `[min, max]`. -/
theorem C10_clamp_bounds (x min max : ℚ) (h : min ≤ max) :
    min ≤ Clamp x min max ∧ Clamp x min max ≤ max ∧
    (min ≤ x → x ≤ max → Clamp x min max = x) := by
  unfold Clamp
  split_ifs with h1 h2 <;>
    exact ⟨by linarith, by linarith, fun hx1 hx2 => by linarith⟩

theorem C10_clamp_bounds_witness :
    (0 : ℚ) ≤ 10 ∧
    ((0 : ℚ) ≤ Clamp 5 0 10 ∧ Clamp 5 0 10 ≤ 10 ∧
     ((0 : ℚ) ≤ 5 → (5 : ℚ) ≤ 10 → Clamp 5 0 10 = 5)) :=
  ⟨by norm_num, C10_clamp_bounds 5 0 10 (by norm_num)⟩

end ToxylMath
